import Mathlib

/-!
Verification development for the kyc-document-upload OCR pipeline.

Strings are modelled as `List Char`.  Python character classes are modelled
on the ASCII and Devanagari ranges this bilingual (en/hi) program processes;
confidences (Python floats holding OCR scores in [0,1]) are modelled as
exact rationals, which agrees with IEEE float comparison against the
thresholds 0.5 and 0.2 for all realistic counts.
-/

/-- Python whitespace (`str.split()`, `str.strip()`, regex `\s`), ASCII part;
exotic Unicode space characters are omitted. -/
def pySpace (c : Char) : Bool :=
  c == ' ' || c == '\t' || c == '\n' || c == '\r' ||
    c == Char.ofNat 0x0b || c == Char.ofNat 0x0c

/-- Decimal digits as matched by regex `\d` / counted by `str.isdigit`:
ASCII digits plus the Devanagari digits U+0966..U+096F. -/
def pyDigit (c : Char) : Bool :=
  (48 ≤ c.toNat && c.toNat ≤ 57) || (0x966 ≤ c.toNat && c.toNat ≤ 0x96F)

/-- Letters of the Devanagari block U+0900..U+097F, i.e. the code points in
that block for which Python `str.isalpha` is true (combining signs and
digits of the block are not letters). -/
def devanagariLetter (c : Char) : Bool :=
  (0x904 ≤ c.toNat && c.toNat ≤ 0x939) || c.toNat == 0x93D || c.toNat == 0x950 ||
    (0x958 ≤ c.toNat && c.toNat ≤ 0x961) || (0x971 ≤ c.toNat && c.toNat ≤ 0x97F)

/-- Python `str.isalpha` restricted to the ASCII and Devanagari ranges:
the ASCII letter ranges A-Z and a-z, or a Devanagari letter. -/
def pyAlpha (c : Char) : Bool :=
  (65 ≤ c.toNat && c.toNat ≤ 90) || (97 ≤ c.toNat && c.toNat ≤ 122) || devanagariLetter c

/-- Membership in the Devanagari block U+0900..U+097F, the test
`'ऀ' <= c <= 'ॿ'` of `detect_text_language` (any character of the
block counts, letter or not). -/
def devBlock (c : Char) : Bool := 0x900 ≤ c.toNat && c.toNat ≤ 0x97F

/-- Python `str.isascii`: code point below 128. -/
def pyAscii (c : Char) : Bool := c.toNat < 128

/-- Word characters for the regex word boundary `\b` (`\w`): letters,
digits and underscore. -/
def pyWord (c : Char) : Bool := pyAlpha c || pyDigit c || c == '_'

/-- Helper for whitespace collapsing: `pending` records whether whitespace
has been seen since the last emitted token character. -/
def collapseAux : Bool → List Char → List Char
  | _, [] => []
  | pending, c :: rest =>
    if pySpace c then collapseAux true rest
    else if pending then ' ' :: c :: collapseAux false rest
    else c :: collapseAux false rest

/-- Models `' '.join(text.split())`: trim the ends and squeeze every interior
whitespace run to one single space. -/
def collapseWS (s : List Char) : List Char :=
  collapseAux false (s.dropWhile pySpace)

/-- Models Python `str.strip()`: drop leading and trailing whitespace. -/
def stripList (s : List Char) : List Char :=
  ((s.dropWhile pySpace).reverse.dropWhile pySpace).reverse

/-- Join a list of strings with single spaces. -/
def joinSpace : List (List Char) → List Char
  | [] => []
  | [t] => t
  | t :: u :: ts => t ++ ' ' :: joinSpace (u :: ts)

/-- Models the Python substring test `pat in s`. -/
def containsSub (pat : List Char) : List Char → Bool
  | [] => pat.isEmpty
  | c :: rest => pat.isPrefixOf (c :: rest) || containsSub pat rest

/-- Fuelled helper for `replaceSub`; the fuel is the length of the scanned
string, enough because each step consumes at least one character. -/
def replaceSubAux (old new : List Char) : Nat → List Char → List Char
  | 0, s => s
  | _ + 1, [] => []
  | fuel + 1, c :: rest =>
    if old.isPrefixOf (c :: rest) then
      new ++ replaceSubAux old new fuel (rest.drop (old.length - 1))
    else c :: replaceSubAux old new fuel rest

/-- Models Python `s.replace(old, new)` for a nonempty `old`: scan left to
right, replacing non-overlapping occurrences and resuming after each
replaced occurrence. -/
def replaceSub (old new s : List Char) : List Char :=
  replaceSubAux old new s.length s

/-- The character substitution `text.replace('|', 'I')`. -/
def pipeFix (c : Char) : Char := if c == '|' then 'I' else c

/-- The blanket character substitution `text.replace('0', 'O')` of the
`src/Scripts` variant of `clean_text`. -/
def zeroFix (c : Char) : Char := if c == '0' then 'O' else c

/-- The substitution `text.replace('"', '"')` appearing (twice) on line 325
of `src/Scripts/easyocr_processor.py`; its smart-quote literals were
corrupted to ASCII in the committed file, so it replaces a straight double
quote by itself and is the identity. -/
def quoteFix (c : Char) : Char := if c == '"' then '"' else c

/-- True when the regex lookbehind `(?<=\D)` succeeds: a previous character
exists and is not a digit. -/
def prevNonDigit : Option Char → Bool
  | none => false
  | some p => !pyDigit p

/-- True when the regex lookahead `(?=\D)` succeeds: a next character exists
and is not a digit. -/
def nextNonDigit : List Char → Bool
  | [] => false
  | d :: _ => !pyDigit d

/-- Helper for `subZero`, carrying the character preceding the current
position in the original string (the lookarounds of the regex are evaluated
against the input, which a left-to-right scan of single-character matches
reproduces exactly). -/
def subZeroAux : Option Char → List Char → List Char
  | _, [] => []
  | prev, c :: rest =>
    (if c == '0' && prevNonDigit prev && nextNonDigit rest then 'O' else c)
      :: subZeroAux (some c) rest

/-- Models `re.sub(r'(?<=\D)0(?=\D)', 'O', text)` of the API variant of
`clean_text`: a zero is replaced by the letter O exactly when a non-digit
character immediately precedes it and a non-digit character immediately
follows it in the input. -/
def subZero (s : List Char) : List Char := subZeroAux none s

/-- The 15-character pattern argument that line 326 of
`src/Scripts/easyocr_processor.py` actually passes to `str.replace`: the
smart-quote literals of the intended quotation-mark normalization were
corrupted to ASCII quotes, so the line parses as a single call
`text.replace(OLD, "'")` whose OLD is this fragment of the source text
itself (comma, space, double quote, single quote, double quote, close
paren, dot, the word replace, open paren). -/
def mangledOld : List Char :=
  [',', ' ', '"', Char.ofNat 39, '"', ')', '.', 'r', 'e', 'p', 'l', 'a', 'c', 'e', '(']

/-- The replacement argument of that same call: one single-quote character. -/
def mangledNew : List Char := [Char.ofNat 39]

namespace Scripts

/-- Models `EasyOCRProcessor.clean_text` of `src/Scripts/easyocr_processor.py`
(lines 304-328): empty guard; whitespace collapsing; `|` to `I`; blanket
`0` to `O`; the two identity quote substitutions of line 325; the corrupted
substitution of line 326 (see `mangledOld`); final strip. -/
def clean_text (s : List Char) : List Char :=
  if s = [] then s
  else
    stripList (replaceSub mangledOld mangledNew
      ((((collapseWS s).map pipeFix).map zeroFix).map (fun c => quoteFix (quoteFix c))))

/-- Count of characters of the Devanagari block, `hindi_chars` of
`detect_text_language` (note: every block character counts, letters,
combining signs and Devanagari digits alike). -/
def hindiChars (s : List Char) : Nat := (s.filter fun c => devBlock c).length

/-- Count of ASCII alphabetic characters, `english_chars` of
`detect_text_language` (`c.isascii() and c.isalpha()`). -/
def englishChars (s : List Char) : Nat :=
  (s.filter fun c => pyAscii c && pyAlpha c).length

/-- Count of all alphabetic characters, `total_chars` of
`detect_text_language`. -/
def totalChars (s : List Char) : Nat := (s.filter fun c => pyAlpha c).length

/-- Models `EasyOCRProcessor.detect_text_language` (lines 228-258).  The
float comparisons `ratio > 0.5` and `ratio > 0.2` are modelled by the exact
integer comparisons `2*count > total` and `5*count > total`, which agree
with the float computation for all realistic string lengths. -/
def detect_text_language (s : List Char) : String :=
  if s = [] then "unknown"
  else if totalChars s = 0 then "unknown"
  else if 2 * hindiChars s > totalChars s then "hi"
  else if 2 * englishChars s > totalChars s then "en"
  else if 5 * hindiChars s > totalChars s && 5 * englishChars s > totalChars s then "mixed"
  else "en"

/-- Left word boundary `\b` at position `i`, for a match whose first matched
character (at `i`) is a word character: the boundary holds when `i` is the
start of the string or the previous character is not a word character. -/
def bndL (s : List Char) (i : Nat) : Bool :=
  i == 0 || !pyWord (s.getD (i - 1) ' ')

/-- Right word boundary `\b` at position `j`, for a match whose last matched
character (at `j-1`) is a word character: the boundary holds when `j` is the
end of the string or the character at `j` is not a word character. -/
def bndR (s : List Char) (j : Nat) : Bool :=
  j == s.length || !pyWord (s.getD j ' ')

/-- A run of `k` characters satisfying `p` starting at position `i`. -/
def chunk (p : Char → Bool) (s : List Char) (i k : Nat) : Bool :=
  i + k ≤ s.length && (List.range k).all fun j => p (s.getD (i + j) ' ')

/-- Uppercase ASCII letter, the regex class `[A-Z]`. -/
def upperAZ (c : Char) : Bool := 'A' ≤ c && c ≤ 'Z'

/-- A match of `\b\d{4}\s?\d{4}\s?\d{4}\b` at position `i` with the two
optional whitespace separators present as given by `g1`, `g2`. -/
def aadhaarAt (s : List Char) (i : Nat) (g1 g2 : Bool) : Bool :=
  let q1 := i + 4
  let p2 := q1 + (if g1 then 1 else 0)
  let q2 := p2 + 4
  let p3 := q2 + (if g2 then 1 else 0)
  let q3 := p3 + 4
  chunk pyDigit s i 4 && (!g1 || pySpace (s.getD q1 'x')) &&
    chunk pyDigit s p2 4 && (!g2 || pySpace (s.getD q2 'x')) &&
    chunk pyDigit s p3 4 && bndL s i && bndR s q3

/-- `re.search(r'\b\d{4}\s?\d{4}\s?\d{4}\b', text)` as a boolean. -/
def aadhaarHit (s : List Char) : Bool :=
  (List.range (s.length + 1)).any fun i =>
    aadhaarAt s i false false || aadhaarAt s i true false ||
      aadhaarAt s i false true || aadhaarAt s i true true

/-- `re.search(r'\b[A-Z]{5}\d{4}[A-Z]\b', text)` as a boolean. -/
def panHit (s : List Char) : Bool :=
  (List.range (s.length + 1)).any fun i =>
    chunk upperAZ s i 5 && chunk pyDigit s (i + 5) 4 && chunk upperAZ s (i + 9) 1 &&
      bndL s i && bndR s (i + 10)

/-- `re.search(r'\b[A-Z]\d{7}\b', text)` as a boolean. -/
def passportHit (s : List Char) : Bool :=
  (List.range (s.length + 1)).any fun i =>
    chunk upperAZ s i 1 && chunk pyDigit s (i + 1) 7 && bndL s i && bndR s (i + 8)

/-- Separator class `[\/\-]` of the date pattern. -/
def dateSep (c : Char) : Bool := c == '/' || c == '-'

/-- A match of `\b\d{1,2}[\/\-]\d{1,2}[\/\-]\d{4}\b` at position `i` with
day and month written with `d1` and `d2` digits. -/
def dateAt (s : List Char) (i d1 d2 : Nat) : Bool :=
  chunk pyDigit s i d1 && dateSep (s.getD (i + d1) 'x') &&
    chunk pyDigit s (i + d1 + 1) d2 && dateSep (s.getD (i + d1 + 1 + d2) 'x') &&
    chunk pyDigit s (i + d1 + 1 + d2 + 1) 4 &&
    bndL s i && bndR s (i + d1 + 1 + d2 + 1 + 4)

/-- `re.search(r'\b\d{1,2}[\/\-]\d{1,2}[\/\-]\d{4}\b', text)` as a boolean. -/
def dateHit (s : List Char) : Bool :=
  (List.range (s.length + 1)).any fun i =>
    dateAt s i 1 1 || dateAt s i 1 2 || dateAt s i 2 1 || dateAt s i 2 2

/-- `re.search(r'\b\d{10}\b', text)` as a boolean. -/
def phoneHit (s : List Char) : Bool :=
  (List.range (s.length + 1)).any fun i =>
    chunk pyDigit s i 10 && bndL s i && bndR s (i + 10)

/-- `re.search(r'\b\d{6}\b', text)` as a boolean. -/
def pinHit (s : List Char) : Bool :=
  (List.range (s.length + 1)).any fun i =>
    chunk pyDigit s i 6 && bndL s i && bndR s (i + 6)

/-- The four government-document keywords of line 299. -/
def govKeywords : List (List Char) :=
  ["government".data, "india".data, "भारत".data, "सरकार".data]

/-- The government-document test of line 299:
`any(keyword in text.lower() for keyword in [...])`, a case-insensitive
substring test (not word-boundary anchored).  `Char.toLower` lowercases the
ASCII range, which matches `str.lower` on the characters involved. -/
def govHit (s : List Char) : Bool :=
  govKeywords.any fun k => containsSub k (s.map Char.toLower)

/-- Models `EasyOCRProcessor.analyze_text_patterns` (lines 260-302): the
fixed pattern table, each entry appended in source order when its search
succeeds. -/
def analyze_text_patterns (s : List Char) : List String :=
  (if aadhaarHit s then ["aadhaar_number"] else []) ++
    (if panHit s then ["pan_number"] else []) ++
    (if passportHit s then ["passport_number"] else []) ++
    (if dateHit s then ["date"] else []) ++
    (if phoneHit s then ["phone_number"] else []) ++
    (if pinHit s then ["pin_code"] else []) ++
    (if govHit s then ["government_document"] else [])

end Scripts

/-- One raw OCR detection `(bbox, text, confidence)` as returned by the
recognition reader in detail mode. -/
structure Detection where
  bbox : List (Int × Int)
  text : List Char
  conf : ℚ
deriving DecidableEq

/-- Minimum of a list of integers, `min(xs)` for a nonempty `xs` (the code
raises ValueError on an empty list, which `process_image` guards against). -/
def listMinI : List Int → Int
  | [] => 0
  | x :: xs => xs.foldl min x

/-- Maximum of a list of integers, `max(xs)` for a nonempty `xs`. -/
def listMaxI : List Int → Int
  | [] => 0
  | x :: xs => xs.foldl max x

/-- Python `str.isdigit` on a whole string: nonempty and all digits. -/
def pyIsdigitStr (s : List Char) : Bool := !s.isEmpty && s.all pyDigit

/-- Python `str.isalpha` on a whole string: nonempty and all alphabetic. -/
def pyIsalphaStr (s : List Char) : Bool := !s.isEmpty && s.all pyAlpha

namespace Scripts

/-- Axis-aligned rectangle derived from the bounding polygon. -/
structure BoundingBox where
  x : Int
  y : Int
  width : Int
  height : Int
deriving DecidableEq

/-- One entry of `word_details` as built by `process_image` (lines 113-125):
the raw detection text, its confidence, the derived rectangle, the
character-class flags and the language tag. -/
structure WordRecord where
  text : List Char
  confidence : ℚ
  box : BoundingBox
  is_numeric : Bool
  is_alphabetic : Bool
  language : String
deriving DecidableEq

/-- Builds the `word_details` entry of one included detection. -/
def mkWordRecord (d : Detection) : WordRecord :=
  let xs := d.bbox.map Prod.fst
  let ys := d.bbox.map Prod.snd
  { text := d.text
    confidence := d.conf
    box :=
      { x := listMinI xs, y := listMinI ys
        width := listMaxI xs - listMinI xs, height := listMaxI ys - listMinI ys }
    is_numeric := pyIsdigitStr d.text
    is_alphabetic := pyIsalphaStr d.text
    language := detect_text_language d.text }

/-- The successful result of `process_image` (the fields the claims are
about; `detected_languages`, timing and engine metadata are omitted). -/
structure ExtractionResult where
  extracted_text : List Char
  confidence : ℚ
  word_details : List WordRecord
  detected_patterns : List String
  valid_detections : Nat
  success : Bool
deriving DecidableEq

/-- The detections kept by the loop of `process_image`: those whose
confidence reaches the threshold (`confidence >= confidence_threshold`,
line 104). -/
def includedDets (dets : List Detection) (threshold : ℚ) : List Detection :=
  dets.filter fun d => threshold ≤ d.conf

/-- The `extracted_text` of `process_image`: the raw texts of the included
detections, each with one trailing space (line 105), stripped once
(line 137) and then cleaned with `clean_text` (line 137). -/
def extractedOf (dets : List Detection) (threshold : ℚ) : List Char :=
  clean_text (stripList (((includedDets dets threshold).map fun d => d.text ++ [' ']).flatten))

/-- The overall confidence of `process_image` (lines 133-134):
`total_confidence / valid_detections if valid_detections > 0 else 0.0`. -/
def overallConf (dets : List Detection) (threshold : ℚ) : ℚ :=
  if (includedDets dets threshold).length = 0 then 0
  else ((includedDets dets threshold).map Detection.conf).sum /
    ((includedDets dets threshold).length : ℚ)

/-- Models the result-processing core of `EasyOCRProcessor.process_image`
(lines 94-167) in detail mode (`extract_word_details` true, every reader
result a `(bbox, text, confidence)` triple): keep the detections whose
confidence reaches the threshold, accumulate their raw texts with one
trailing space each, strip once, clean with `clean_text`, analyze patterns
on the cleaned text, and average the included confidences.  `min()` of an
empty coordinate list raises ValueError, which the surrounding try/except
turns into a failure result, modelled as `Except.error`. -/
def process_image (dets : List Detection) (threshold : ℚ) :
    Except String ExtractionResult :=
  if ((includedDets dets threshold).all fun d => !d.bbox.isEmpty) = true then
    Except.ok
      { extracted_text := extractedOf dets threshold
        confidence := overallConf dets threshold
        word_details := (includedDets dets threshold).map mkWordRecord
        detected_patterns := analyze_text_patterns (extractedOf dets threshold)
        valid_detections := (includedDets dets threshold).length
        success := true }
  else Except.error "min() arg is an empty sequence"

/-- Models the try/except of `preprocess_image` (lines 184-226): on success
the path of the preprocessed artifact is produced, and any exception during
preprocessing is caught, returning the original image path. -/
def preprocess_image (image_path : String) (attempt : Except String String) : String :=
  match attempt with
  | Except.ok p => p
  | Except.error _ => image_path

/-- The preprocessing-plus-recognition flow of `process_image` (lines
78-91): the reader runs on whatever path `preprocess_image` returned. -/
def process_image_from (reader : String → List Detection) (image_path : String)
    (attempt : Except String String) (threshold : ℚ) :
    Except String ExtractionResult :=
  process_image (reader (preprocess_image image_path attempt)) threshold

/-- The `extracted_text` field of a result, empty on failure. -/
def resultText (r : Except String ExtractionResult) : List Char :=
  match r with
  | Except.ok v => v.extracted_text
  | Except.error _ => []

/-- The `detected_patterns` field of a result, empty on failure. -/
def resultPatterns (r : Except String ExtractionResult) : List String :=
  match r with
  | Except.ok v => v.detected_patterns
  | Except.error _ => []

/-- The `word_details` field of a result, empty on failure. -/
def resultRecords (r : Except String ExtractionResult) : List WordRecord :=
  match r with
  | Except.ok v => v.word_details
  | Except.error _ => []

/-- The overall `confidence` field of a result, zero on failure. -/
def resultConf (r : Except String ExtractionResult) : ℚ :=
  match r with
  | Except.ok v => v.confidence
  | Except.error _ => 0

end Scripts

namespace KycApi

/-- Models `EasyOCRProcessor.clean_text` of
`src/KYCDocumentAPI.API/Scripts/easyocr_processor.py` (lines 55-63):
whitespace collapsing, the flanked-zero substitution
`re.sub(r'(?<=\D)0(?=\D)', 'O', text)`, `|` to `I`, final strip. -/
def clean_text (s : List Char) : List Char :=
  stripList ((subZero (collapseWS s)).map pipeFix)

/-- One entry of `word_details` as built by `extract_text` (lines 96-101):
the cleaned text, the confidence, the raw bounding polygon and the
`low_confidence` flag. -/
structure ApiWordRecord where
  text : List Char
  confidence : ℚ
  bounding_box : List (Int × Int)
  low_confidence : Bool
deriving DecidableEq

/-- The result of `extract_text` (lines 110-116). -/
structure ApiResult where
  extracted_text : List Char
  confidence : ℚ
  word_details : List ApiWordRecord
  success : Bool
deriving DecidableEq

/-- The per-detection step of the `extract_text` loop: clean the text, and
skip the detection entirely when the cleaned text strips to empty
(`if not text.strip(): continue`). -/
def keepDetection (d : Detection) : Option (List Char × Detection) :=
  let t := clean_text d.text
  if (stripList t).isEmpty then none else some (t, d)

/-- Models the word-details branch of `EasyOCRProcessor.extract_text`
(lines 85-116): every detection is cleaned and, unless its cleaned text is
empty, contributes a word record (with `low_confidence` set by comparison
with the threshold, not filtered) and its cleaned text plus one trailing
space to `extracted_text`, which is stripped once at the end; the overall
confidence is `np.mean` of the confidences of all raw detections. -/
def extract_text (dets : List Detection) (threshold : ℚ) : ApiResult :=
  let kept := dets.filterMap keepDetection
  { extracted_text := stripList ((kept.map fun td => td.1 ++ [' ']).flatten)
    confidence :=
      if dets.isEmpty then 0
      else (dets.map Detection.conf).sum / (dets.length : ℚ)
    word_details := kept.map fun td =>
      { text := td.1, confidence := td.2.conf, bounding_box := td.2.bbox
        low_confidence := decide (td.2.conf < threshold) }
    success := true }

end KycApi

/-- Modelled from the spec: the word-boundary anchored reading of the
government-document rule of §4.4 ("each a regular expression over the
normalized full text, word-boundary anchored"), stated for comparison with
the substring rule the source actually implements: some keyword occurs in
the lowercased text as a whole word, i.e. with a word boundary on each
side. -/
def govWholeWord (s : List Char) : Bool :=
  let low := s.map Char.toLower
  Scripts.govKeywords.any fun k =>
    (List.range (low.length + 1)).any fun i =>
      k.isPrefixOf (low.drop i) && Scripts.bndL low i && Scripts.bndR low (i + k.length)

/-- Arithmetic mean of a list of rationals, zero when empty. -/
def meanQ (l : List ℚ) : ℚ :=
  if l = [] then 0 else l.sum / (l.length : ℚ)

/-- The synthetic detection list of claim C2: `(bbox, "lNDIA", 0.6)` and
`(bbox, "0123456789", 0.9)`, the rectangles of the claim written as
four-corner polygons as the reader returns them. -/
def c2dets : List Detection :=
  [⟨[(0, 0), (10, 0), (10, 10), (0, 10)], "lNDIA".data, 3 / 5⟩,
    ⟨[(0, 20), (10, 20), (10, 30), (0, 30)], "0123456789".data, 9 / 10⟩]

/-- The failing input of claim C6: a string built so that replacing its
occurrence of `mangledOld` by a single quote glues the surrounding
characters into a fresh occurrence of `mangledOld`. -/
def c6bad : List Char :=
  [',', ' ', '"'] ++ mangledOld ++ ['"', ')', '.', 'r', 'e', 'p', 'l', 'a', 'c', 'e', '(']

/-- The counterexample text of claim C7: the ASCII letter a followed by the
Devanagari digit ० (U+0966). -/
def c7bad : List Char := ['a', Char.ofNat 0x966]

/-- The counterexample detection list of claim C4: one detection of
confidence 0. -/
def c4dets : List Detection := [⟨[(0, 0)], ['a'], 0⟩]

/-- A well-formed detection of full confidence, used by several witnesses. -/
def unitDet : Detection := ⟨[(0, 0), (4, 0), (4, 2), (0, 2)], ['a'], 1⟩

/-- Successful-run equation for `process_image`: when every included
detection has a nonempty bounding polygon, the call produces the structured
result. -/
theorem Scripts.process_image_ok (dets : List Detection) (threshold : ℚ)
    (h : ((Scripts.includedDets dets threshold).all fun d => !d.bbox.isEmpty) = true) :
    Scripts.process_image dets threshold = Except.ok
      { extracted_text := Scripts.extractedOf dets threshold
        confidence := Scripts.overallConf dets threshold
        word_details := (Scripts.includedDets dets threshold).map Scripts.mkWordRecord
        detected_patterns := Scripts.analyze_text_patterns (Scripts.extractedOf dets threshold)
        valid_detections := (Scripts.includedDets dets threshold).length
        success := true } := by
  rw [Scripts.process_image, if_pos h]

/-- C8: the pattern classifier applied to the input "1234 5678 9012"
reports aadhaar_number (the space-separated 4+4+4 digit groups match the
Aadhaar rule) and does not report pin_code (no word-boundary-anchored run
of exactly 6 digits exists in the text). -/
theorem c8_aadhaar_without_pin :
    "aadhaar_number" ∈ Scripts.analyze_text_patterns "1234 5678 9012".data ∧
      "pin_code" ∉ Scripts.analyze_text_patterns "1234 5678 9012".data := by
  decide

/-- Both detections of `c2dets` reach the threshold 0.5. -/
theorem c2dets_included : Scripts.includedDets c2dets (1 / 2) = c2dets := by
  simp [Scripts.includedDets, c2dets, List.filter_cons]
  norm_num

/-- Evaluation of the pipeline on `c2dets`: the extracted text is
"lNDIA O123456789" (the letter l is not substituted, the zero is blanket
substituted) and no pattern at all is detected. -/
theorem c2dets_eval :
    Scripts.resultText (Scripts.process_image c2dets (1 / 2)) = "lNDIA O123456789".data ∧
      Scripts.resultPatterns (Scripts.process_image c2dets (1 / 2)) = [] := by
  have hb : ((Scripts.includedDets c2dets (1 / 2)).all fun d => !d.bbox.isEmpty) = true := by
    rw [c2dets_included]; decide
  rw [Scripts.process_image_ok c2dets (1 / 2) hb]
  refine ⟨?_, ?_⟩
  · show Scripts.extractedOf c2dets (1 / 2) = _
    rw [Scripts.extractedOf, c2dets_included]; decide
  · show Scripts.analyze_text_patterns (Scripts.extractedOf c2dets (1 / 2)) = []
    rw [Scripts.extractedOf, c2dets_included]; decide

/-- C2 (counterexample): on the claim's detection list with threshold 0.5
the pipeline does not produce extracted text "INDIA O123456789" together
with a detected phone_number pattern: the detected-pattern list is empty
(the blanket zero substitution of `clean_text` destroys the ten-digit run,
and the code substitutes only the vertical bar, not the letter l). -/
theorem c2_pipeline_counterexample :
    ¬(Scripts.resultText (Scripts.process_image c2dets (1 / 2)) = "INDIA O123456789".data ∧
      "phone_number" ∈ Scripts.resultPatterns (Scripts.process_image c2dets (1 / 2))) := by
  intro h
  have h2 := h.2
  rw [c2dets_eval.2] at h2
  exact List.not_mem_nil _ h2

/-- C2 (amended): on the claim's detection list with threshold 0.5 the
pipeline produces extracted_text "lNDIA O123456789" and an empty
detected_patterns list, so in particular phone_number is not reported. -/
theorem c2_pipeline_amended :
    Scripts.resultText (Scripts.process_image c2dets (1 / 2)) = "lNDIA O123456789".data ∧
      Scripts.resultPatterns (Scripts.process_image c2dets (1 / 2)) = [] :=
  c2dets_eval

/-- C6 (code bug): the Scripts variant of `clean_text` is not idempotent.
Cleaning `c6bad` once yields `mangledOld` and cleaning it again yields a
lone single quote, because the corrupted quotation-mark substitution of
line 326 (see `mangledOld`) can manufacture new occurrences of its own
pattern. -/
theorem c6_clean_text_not_idempotent :
    Scripts.clean_text c6bad = mangledOld ∧
      Scripts.clean_text (Scripts.clean_text c6bad) = mangledNew ∧
      Scripts.clean_text (Scripts.clean_text c6bad) ≠ Scripts.clean_text c6bad := by
  decide

/-- C7 (counterexample): every alphabetic character of `c7bad` is an ASCII
letter, yet the classifier answers "hi", not "en": `hindi_chars` counts
every character of the Devanagari block, including the digit ०, so the
hindi ratio is 1 while the claim expects the count to cover only alphabetic
Devanagari characters. -/
theorem c7_language_counterexample :
    (∀ c ∈ c7bad, pyAlpha c = true → (pyAscii c && pyAlpha c) = true) ∧
      Scripts.detect_text_language c7bad = "hi" ∧
      Scripts.detect_text_language c7bad ≠ "en" := by
  decide

/-- C9 (counterexample): the text "Indian" contains the keyword "india"
only as a proper substring (no word boundary after it), so the
word-boundary-anchored rule of the claim does not fire, yet the code
reports government_document because line 299 is a plain substring test. -/
theorem c9_government_counterexample :
    "government_document" ∈ Scripts.analyze_text_patterns "Indian".data ∧
      govWholeWord "Indian".data = false := by
  decide

/-- Evaluation of the overall confidence on `c4dets` with threshold 0. -/
theorem c4dets_conf_eval : Scripts.resultConf (Scripts.process_image c4dets 0) = 0 := by
  have hi : Scripts.includedDets c4dets 0 = c4dets := by decide
  have hb : ((Scripts.includedDets c4dets 0).all fun d => !d.bbox.isEmpty) = true := by
    rw [hi]; decide
  rw [Scripts.process_image_ok c4dets 0 hb]
  show Scripts.overallConf c4dets 0 = 0
  rw [Scripts.overallConf, hi]
  simp [c4dets]

/-- C4 (counterexample): with the single confidence-0 detection of
`c4dets` and threshold 0, the word-record list is nonempty while the
overall confidence equals 0, refuting "equals 0.0 exactly when the
word-record list is empty". -/
theorem c4_confidence_counterexample :
    Scripts.resultRecords (Scripts.process_image c4dets 0) ≠ [] ∧
      Scripts.resultConf (Scripts.process_image c4dets 0) = 0 :=
  ⟨by decide, c4dets_conf_eval⟩

theorem filterLength_mono (l : List Char) (p q : Char → Bool)
    (h : ∀ c ∈ l, p c = true → q c = true) :
    (l.filter p).length ≤ (l.filter q).length := by
  induction l with
  | nil => simp
  | cons c rest ih =>
    have ih2 := ih fun x hx => h x (List.mem_cons_of_mem _ hx)
    by_cases hp : p c = true
    · rw [List.filter_cons_of_pos hp, List.filter_cons_of_pos (h c (List.mem_cons_self _ _) hp)]
      simpa using ih2
    · rw [List.filter_cons_of_neg (by simpa using hp)]
      by_cases hq : q c = true
      · rw [List.filter_cons_of_pos hq]
        exact ih2.trans (Nat.le_succ _)
      · rw [List.filter_cons_of_neg (by simpa using hq)]
        exact ih2

theorem pyAscii_of_alpha_not_block (c : Char) (ha : pyAlpha c = true)
    (hb : devBlock c = false) : pyAscii c = true := by
  simp [pyAlpha, devanagariLetter, devBlock, pyAscii] at *
  omega

theorem totalChars_ne_nil (s : List Char) (h0 : 0 < Scripts.totalChars s) : s ≠ [] := by
  intro he
  subst he
  simp [Scripts.totalChars] at h0

/-- C7 (amended): the language classifier counts every character of the
Devanagari block U+0900-U+097F as hindi (alphabetic or not) and ASCII
alphabetic characters as english, over the total of alphabetic characters.
It returns unknown when that total is 0; hi for a text with at least one
letter all of whose letters are Devanagari; en for a text with at least one
letter and no Devanagari-block character at all; and mixed when both ratios
exceed 0.2 without either exceeding 0.5. -/
theorem c7_language_amended (s : List Char) :
    (Scripts.totalChars s = 0 → Scripts.detect_text_language s = "unknown") ∧
      (0 < Scripts.totalChars s → (∀ c ∈ s, pyAlpha c = true → devBlock c = true) →
        Scripts.detect_text_language s = "hi") ∧
      (0 < Scripts.totalChars s → (∀ c ∈ s, devBlock c = false) →
        Scripts.detect_text_language s = "en") ∧
      (0 < Scripts.totalChars s →
        5 * Scripts.hindiChars s > Scripts.totalChars s →
        5 * Scripts.englishChars s > Scripts.totalChars s →
        ¬2 * Scripts.hindiChars s > Scripts.totalChars s →
        ¬2 * Scripts.englishChars s > Scripts.totalChars s →
        Scripts.detect_text_language s = "mixed") := by
  refine ⟨?_, ?_, ?_, ?_⟩
  · intro h
    by_cases hs : s = []
    · simp [Scripts.detect_text_language, hs]
    · simp [Scripts.detect_text_language, hs, h]
  · intro h0 hall
    have hmono := filterLength_mono s (fun c => pyAlpha c) (fun c => devBlock c) hall
    have hne : ¬Scripts.totalChars s = 0 := by omega
    have hgt : Scripts.totalChars s < 2 * Scripts.hindiChars s := by
      unfold Scripts.hindiChars Scripts.totalChars at *
      omega
    simp [Scripts.detect_text_language, totalChars_ne_nil s h0, hne, hgt]
  · intro h0 hnone
    have hhin : Scripts.hindiChars s = 0 := by
      unfold Scripts.hindiChars
      rw [List.length_eq_zero, List.filter_eq_nil_iff]
      intro c hc
      simp [hnone c hc]
    have heng : Scripts.englishChars s = Scripts.totalChars s := by
      unfold Scripts.englishChars Scripts.totalChars
      congr 1
      apply List.filter_congr
      intro c hc
      by_cases ha : pyAlpha c = true
      · simp [ha, pyAscii_of_alpha_not_block c ha (hnone c hc)]
      · rw [Bool.not_eq_true] at ha
        simp [ha]
    have hne : ¬Scripts.totalChars s = 0 := by omega
    have hh : ¬Scripts.totalChars s < 2 * Scripts.hindiChars s := by omega
    have he : Scripts.totalChars s < 2 * Scripts.englishChars s := by omega
    simp [Scripts.detect_text_language, totalChars_ne_nil s h0, hne, hh, he]
  · intro h0 h5h h5e h2h h2e
    have hne : ¬Scripts.totalChars s = 0 := by omega
    have a1 : ¬Scripts.totalChars s < 2 * Scripts.hindiChars s := by omega
    have a2 : ¬Scripts.totalChars s < 2 * Scripts.englishChars s := by omega
    have a3 : Scripts.totalChars s < 5 * Scripts.hindiChars s := by omega
    have a4 : Scripts.totalChars s < 5 * Scripts.englishChars s := by omega
    simp [Scripts.detect_text_language, totalChars_ne_nil s h0, hne, a1, a2, a3, a4]

theorem mem_tagList (b : Bool) (x a : String) :
    (a ∈ if b = true then [x] else ([] : List String)) ↔ b = true ∧ a = x := by
  cases b <;> simp

/-- C9 (amended): the government_document pattern, unlike the regex rows of
the table, is not word-boundary anchored: it is reported exactly when one
of the keywords "government" or "india" (case-insensitively) or their Hindi
equivalents occurs as a substring of the text. -/
theorem c9_government_amended (s : List Char) :
    "government_document" ∈ Scripts.analyze_text_patterns s ↔ Scripts.govHit s = true := by
  have e1 : ("government_document" = "aadhaar_number") = False := eq_false (by decide)
  have e2 : ("government_document" = "pan_number") = False := eq_false (by decide)
  have e3 : ("government_document" = "passport_number") = False := eq_false (by decide)
  have e4 : ("government_document" = "date") = False := eq_false (by decide)
  have e5 : ("government_document" = "phone_number") = False := eq_false (by decide)
  have e6 : ("government_document" = "pin_code") = False := eq_false (by decide)
  simp [Scripts.analyze_text_patterns, List.mem_append, mem_tagList,
    e1, e2, e3, e4, e5, e6]

theorem included_all_bbox (dets : List Detection) (t : ℚ)
    (hb : ∀ d ∈ dets, d.bbox ≠ []) :
    ((Scripts.includedDets dets t).all fun d => !d.bbox.isEmpty) = true := by
  rw [List.all_eq_true]
  intro d hd
  have hmem : d ∈ dets := List.mem_of_mem_filter hd
  simp [List.isEmpty_iff, hb d hmem]

theorem records_conf_map (dets : List Detection) (t : ℚ) :
    ((Scripts.includedDets dets t).map Scripts.mkWordRecord).map Scripts.WordRecord.confidence
      = (Scripts.includedDets dets t).map Detection.conf := by
  rw [List.map_map]
  rfl

/-- C4 (amended): for every detection list with well-formed bounding
polygons and confidences in [0,1] and every threshold, the result's overall
confidence is in [0,1] and equals the arithmetic mean of the confidences of
the included word records; it equals 0.0 whenever the word-record list is
empty, and when the threshold is positive it equals 0.0 exactly when the
word-record list is empty.  (With threshold 0 and a confidence-0 detection,
the mean is 0 with a nonempty record list, so the unconditional "exactly
when" of the claim fails; see the counterexample.) -/
theorem c4_confidence_amended (dets : List Detection) (t : ℚ)
    (hb : ∀ d ∈ dets, d.bbox ≠ [])
    (hc : ∀ d ∈ dets, 0 ≤ d.conf ∧ d.conf ≤ 1) :
    ∃ res, Scripts.process_image dets t = Except.ok res ∧
      0 ≤ res.confidence ∧ res.confidence ≤ 1 ∧
      res.confidence = meanQ (res.word_details.map Scripts.WordRecord.confidence) ∧
      (res.word_details = [] → res.confidence = 0) ∧
      (0 < t → (res.confidence = 0 ↔ res.word_details = [])) := by
  refine ⟨_, Scripts.process_image_ok dets t (included_all_bbox dets t hb), ?_, ?_, ?_, ?_, ?_⟩
  all_goals simp only [Scripts.overallConf, records_conf_map]
  · split
    · exact le_refl 0
    · refine div_nonneg (List.sum_nonneg ?_) (Nat.cast_nonneg _)
      intro x hx
      obtain ⟨d, hd, rfl⟩ := List.mem_map.mp hx
      exact (hc d (List.mem_of_mem_filter hd)).1
  · split
    · norm_num
    · rename_i hlen
      have hlen2 : 0 < (Scripts.includedDets dets t).length := Nat.pos_of_ne_zero hlen
      rw [div_le_one (by exact_mod_cast hlen2)]
      have hsum := List.sum_le_card_nsmul ((Scripts.includedDets dets t).map Detection.conf) 1
        (by
          intro x hx
          obtain ⟨d, hd, rfl⟩ := List.mem_map.mp hx
          exact (hc d (List.mem_of_mem_filter hd)).2)
      simpa using hsum
  · rw [meanQ]
    by_cases hinc : Scripts.includedDets dets t = []
    · simp [hinc]
    · rw [if_neg (by simpa using hinc), if_neg (by simpa [List.length_eq_zero] using hinc)]
      rw [List.length_map]
  · intro hnil
    rw [List.map_eq_nil_iff] at hnil
    simp [hnil]
  · intro ht
    constructor
    · intro hzero
      by_contra hne
      rw [List.map_eq_nil_iff] at hne
      have hlen : 0 < (Scripts.includedDets dets t).length :=
        List.length_pos.mpr hne
      rw [if_neg (by omega)] at hzero
      have hpos : 0 < ((Scripts.includedDets dets t).map Detection.conf).sum := by
        apply List.sum_pos
        · intro x hx
          obtain ⟨d, hd, rfl⟩ := List.mem_map.mp hx
          have := of_decide_eq_true (List.mem_filter.mp hd).2
          exact lt_of_lt_of_le ht this
        · simpa using hne
      have : 0 < ((Scripts.includedDets dets t).map Detection.conf).sum /
          ((Scripts.includedDets dets t).length : ℚ) :=
        div_pos hpos (by exact_mod_cast hlen)
      exact (ne_of_gt this) hzero
    · intro hnil
      rw [List.map_eq_nil_iff] at hnil
      simp [hnil]

/-- C5: for every fixed detection list (with well-formed bounding polygons)
and thresholds t1 < t2, every WordRecord produced with threshold t2 is also
produced with threshold t1. -/
theorem c5_threshold_monotone (dets : List Detection) (t1 t2 : ℚ) (h12 : t1 < t2)
    (hb : ∀ d ∈ dets, d.bbox ≠ []) (r : Scripts.WordRecord)
    (hr : r ∈ Scripts.resultRecords (Scripts.process_image dets t2)) :
    r ∈ Scripts.resultRecords (Scripts.process_image dets t1) := by
  rw [Scripts.process_image_ok dets t2 (included_all_bbox dets t2 hb)] at hr
  rw [Scripts.process_image_ok dets t1 (included_all_bbox dets t1 hb)]
  simp only [Scripts.resultRecords] at hr ⊢
  obtain ⟨d, hd, rfl⟩ := List.mem_map.mp hr
  obtain ⟨hdd, hdc⟩ := List.mem_filter.mp hd
  refine List.mem_map_of_mem _ (List.mem_filter.mpr ⟨hdd, ?_⟩)
  have h2 := of_decide_eq_true hdc
  exact decide_eq_true (le_trans h12.le h2)

/-- Witness for C5 at a concrete input. -/
theorem c5_threshold_monotone_witness :
    Scripts.mkWordRecord unitDet ∈
      Scripts.resultRecords (Scripts.process_image [unitDet] 0) :=
  c5_threshold_monotone [unitDet] 0 1 (by norm_num) (by decide)
    (Scripts.mkWordRecord unitDet) (by decide)

/-- Witness for C4 (amended) at a concrete input. -/
theorem c4_confidence_witness :
    ∃ res, Scripts.process_image [unitDet] 1 = Except.ok res ∧
      0 ≤ res.confidence ∧ res.confidence ≤ 1 ∧
      res.confidence = meanQ (res.word_details.map Scripts.WordRecord.confidence) ∧
      (res.word_details = [] → res.confidence = 0) ∧
      (0 < (1 : ℚ) → (res.confidence = 0 ↔ res.word_details = [])) :=
  c4_confidence_amended [unitDet] 1 (by decide) (by decide)

/-- C10: when the preprocessing step itself errors, the extraction call
does not fail: the pipeline recognizes the original, unprocessed image (the
run equals a run whose reader is given the original path) and still
produces a successful result. -/
theorem c10_preprocess_fallback (reader : String → List Detection)
    (image_path errmsg : String) (t : ℚ)
    (hb : ∀ d ∈ reader image_path, d.bbox ≠ []) :
    Scripts.process_image_from reader image_path (Except.error errmsg) t =
        Scripts.process_image (reader image_path) t ∧
      ∃ res, Scripts.process_image_from reader image_path (Except.error errmsg) t =
          Except.ok res ∧ res.success = true := by
  exact ⟨rfl, ⟨_, Scripts.process_image_ok (reader image_path) t
    (included_all_bbox (reader image_path) t hb), rfl⟩⟩

/-- Witness for C10 at a concrete input. -/
theorem c10_preprocess_fallback_witness :
    Scripts.process_image_from (fun _ => [unitDet]) "doc.png" (Except.error "boom") 1 =
        Scripts.process_image [unitDet] 1 ∧
      ∃ res, Scripts.process_image_from (fun _ => [unitDet]) "doc.png" (Except.error "boom") 1 =
          Except.ok res ∧ res.success = true :=
  c10_preprocess_fallback (fun _ => [unitDet]) "doc.png" "boom" 1 (by decide)

/-- Witness for C7 (amended) at concrete inputs, one per branch. -/
theorem c7_language_witness :
    Scripts.detect_text_language "कख".data = "hi" ∧
      Scripts.detect_text_language "ab".data = "en" ∧
      Scripts.detect_text_language "abकख".data = "mixed" ∧
      Scripts.detect_text_language "12".data = "unknown" :=
  ⟨(c7_language_amended "कख".data).2.1 (by decide) (by decide),
    (c7_language_amended "ab".data).2.2.1 (by decide) (by decide),
    (c7_language_amended "abकख".data).2.2.2 (by decide) (by decide) (by decide)
      (by decide) (by decide),
    (c7_language_amended "12".data).1 (by decide)⟩


theorem dw_head (l : List Char) (c : Char)
    (h : (l.dropWhile pySpace).head? = some c) : pySpace c = false := by
  induction l with
  | nil => simp at h
  | cons a rest ih =>
    rw [List.dropWhile_cons] at h
    by_cases ha : pySpace a = true
    · rw [if_pos ha] at h
      exact ih h
    · rw [if_neg ha] at h
      simp at h
      subst h
      simpa using ha

theorem suffix_getLast (m b : List Char) (hs : b <:+ m) (hb : b ≠ []) :
    b.getLast? = m.getLast? := by
  obtain ⟨pre, rfl⟩ := hs
  exact (List.getLast?_append_of_ne_nil pre hb).symm

theorem strip_head (v : List Char) (c : Char)
    (h : (stripList v).head? = some c) : pySpace c = false := by
  rw [stripList, List.head?_reverse] at h
  have hb : ((v.dropWhile pySpace).reverse.dropWhile pySpace) ≠ [] := by
    intro he
    rw [he] at h
    simp at h
  rw [suffix_getLast _ _ (List.dropWhile_suffix pySpace) hb, List.getLast?_reverse] at h
  exact dw_head _ _ h

theorem strip_last (v : List Char) (c : Char)
    (h : (stripList v).getLast? = some c) : pySpace c = false := by
  rw [stripList, List.getLast?_reverse] at h
  exact dw_head _ _ h

theorem strip_eq_self (l : List Char)
    (hh : ∀ c, l.head? = some c → pySpace c = false)
    (hl : ∀ c, l.getLast? = some c → pySpace c = false) :
    stripList l = l := by
  cases l with
  | nil => rfl
  | cons x r =>
    have h1 : (x :: r).dropWhile pySpace = x :: r := by
      rw [List.dropWhile_cons, if_neg]
      rw [Bool.not_eq_true]
      exact hh x rfl
    rw [stripList, h1]
    cases hre : (x :: r).reverse with
    | nil => simp at hre
    | cons y r2 =>
      have hy : (x :: r).getLast? = some y := by
        rw [← List.head?_reverse, hre]
        rfl
      have h2 : pySpace y = false := hl y hy
      have h3 : List.dropWhile pySpace (y :: r2) = y :: r2 := by
        rw [List.dropWhile_cons, if_neg (by simp [h2])]
      rw [h3, ← hre, List.reverse_reverse]

theorem strip_idem (v : List Char) : stripList (stripList v) = stripList v :=
  strip_eq_self _ (strip_head v) (strip_last v)

theorem joinSpace_ne_nil (t : List Char) (ts : List (List Char)) (ht : t ≠ []) :
    joinSpace (t :: ts) ≠ [] := by
  cases ts with
  | nil => simpa [joinSpace] using ht
  | cons u r =>
    rw [joinSpace]
    simp

theorem flatten_spaced (t : List Char) (ts : List (List Char)) :
    ((t :: ts).map fun u => u ++ [' ']).flatten = joinSpace (t :: ts) ++ [' '] := by
  induction ts generalizing t with
  | nil => simp [joinSpace]
  | cons u r ih =>
    rw [List.map_cons, List.flatten_cons, ih u, joinSpace]
    simp

theorem joinSpace_head (t : List Char) (ts : List (List Char)) (ht : t ≠ []) :
    (joinSpace (t :: ts)).head? = t.head? := by
  obtain ⟨c, r, rfl⟩ : ∃ c r, t = c :: r := by
    cases t with
    | nil => exact absurd rfl ht
    | cons c r => exact ⟨c, r, rfl⟩
  cases ts with
  | nil => rfl
  | cons u r2 =>
    rw [joinSpace]
    rfl

theorem joinSpace_getLast (t : List Char) (ts : List (List Char))
    (h : ∀ u ∈ t :: ts, u ≠ []) :
    (joinSpace (t :: ts)).getLast? = t.getLast? ∨
      ∃ u ∈ ts, (joinSpace (t :: ts)).getLast? = u.getLast? := by
  induction ts generalizing t with
  | nil => exact Or.inl rfl
  | cons u r ih =>
    right
    have h2 : ∀ v ∈ u :: r, v ≠ [] := fun v hv => h v (List.mem_cons_of_mem _ hv)
    have hne : joinSpace (u :: r) ≠ [] := joinSpace_ne_nil u r (h2 u (List.mem_cons_self _ _))
    have e1 : (joinSpace (t :: u :: r)).getLast? = (joinSpace (u :: r)).getLast? := by
      rw [joinSpace]
      rw [List.getLast?_append_of_ne_nil _ (by simp : (' ' :: joinSpace (u :: r)) ≠ [])]
      rw [show (' ' :: joinSpace (u :: r)) = [' '] ++ joinSpace (u :: r) from rfl]
      rw [List.getLast?_append_of_ne_nil _ hne]
    rcases ih u h2 with h3 | ⟨v, hv, h3⟩
    · exact ⟨u, List.mem_cons_self _ _, by rw [e1, h3]⟩
    · exact ⟨v, List.mem_cons_of_mem _ hv, by rw [e1, h3]⟩

theorem strip_flatten (ts : List (List Char))
    (hne : ∀ t ∈ ts, t ≠ [])
    (hh : ∀ t ∈ ts, ∀ c, t.head? = some c → pySpace c = false)
    (hl : ∀ t ∈ ts, ∀ c, t.getLast? = some c → pySpace c = false) :
    stripList ((ts.map fun t => t ++ [' ']).flatten) = joinSpace ts := by
  cases ts with
  | nil => rfl
  | cons t ts2 =>
    rw [flatten_spaced]
    have htne := hne t (List.mem_cons_self _ _)
    have hJne : joinSpace (t :: ts2) ≠ [] := joinSpace_ne_nil t ts2 htne
    have h1 : (joinSpace (t :: ts2) ++ [' ']).dropWhile pySpace
        = joinSpace (t :: ts2) ++ [' '] := by
      cases hJ : joinSpace (t :: ts2) with
      | nil => exact absurd hJ hJne
      | cons a b =>
        have ha : pySpace a = false := by
          apply hh t (List.mem_cons_self _ _)
          rw [← joinSpace_head t ts2 htne, hJ]
          rfl
        rw [List.cons_append, List.dropWhile_cons, if_neg (by simp [ha])]
    have hlast : ∀ d, (joinSpace (t :: ts2)).getLast? = some d → pySpace d = false := by
      intro d hd
      rcases joinSpace_getLast t ts2 hne with h3 | ⟨u, hu, h3⟩
      · exact hl t (List.mem_cons_self _ _) d (by rw [← h3]; exact hd)
      · exact hl u (List.mem_cons_of_mem _ hu) d (by rw [← h3]; exact hd)
    have h2 : (joinSpace (t :: ts2)).reverse.dropWhile pySpace
        = (joinSpace (t :: ts2)).reverse := by
      cases hR : (joinSpace (t :: ts2)).reverse with
      | nil => rfl
      | cons y r2 =>
        have hy : (joinSpace (t :: ts2)).getLast? = some y := by
          rw [← List.head?_reverse, hR]
          rfl
        rw [List.dropWhile_cons, if_neg (by simp [hlast y hy])]
    rw [stripList, h1, List.reverse_append]
    rw [show ([' '] : List Char).reverse = [' '] from rfl, List.singleton_append]
    rw [List.dropWhile_cons, if_pos (by decide : pySpace ' ' = true), h2, List.reverse_reverse]

theorem kept_text_good (d : Detection) (td : List Char × Detection)
    (h : KycApi.keepDetection d = some td) :
    td.1 ≠ [] ∧ (∀ c, td.1.head? = some c → pySpace c = false) ∧
      (∀ c, td.1.getLast? = some c → pySpace c = false) := by
  rw [KycApi.keepDetection] at h
  by_cases he : (stripList (KycApi.clean_text d.text)).isEmpty = true
  · rw [if_pos he] at h
    exact absurd h (by simp)
  · rw [if_neg he] at h
    have hpair : (KycApi.clean_text d.text, d) = td := by
      simpa using h
    obtain rfl := hpair.symm
    have hstrip : KycApi.clean_text d.text
        = stripList ((subZero (collapseWS d.text)).map pipeFix) := rfl
    refine ⟨?_, ?_, ?_⟩
    · intro hnil
      apply he
      rw [show KycApi.clean_text d.text = [] from hnil]
      rfl
    · intro c hc
      rw [hstrip] at hc
      exact strip_head _ c hc
    · intro c hc
      rw [hstrip] at hc
      exact strip_last _ c hc

/-- C3: for every detection list and threshold, the extracted_text of the
extract_text result equals the texts of its word records joined by single
spaces in detection order (the code appends one trailing space per record
and trims once at the end). -/
theorem c3_extracted_text_is_join (dets : List Detection) (threshold : ℚ) :
    (KycApi.extract_text dets threshold).extracted_text =
      joinSpace ((KycApi.extract_text dets threshold).word_details.map
        KycApi.ApiWordRecord.text) := by
  show stripList (((dets.filterMap KycApi.keepDetection).map fun td => td.1 ++ [' ']).flatten)
      = joinSpace (((dets.filterMap KycApi.keepDetection).map fun td =>
          ({ text := td.1, confidence := td.2.conf, bounding_box := td.2.bbox,
             low_confidence := decide (td.2.conf < threshold) } : KycApi.ApiWordRecord)).map
          KycApi.ApiWordRecord.text)
  rw [List.map_map]
  have hmm : ((dets.filterMap KycApi.keepDetection).map fun td => td.1 ++ [' '])
      = ((dets.filterMap KycApi.keepDetection).map
          (KycApi.ApiWordRecord.text ∘ fun td =>
            ({ text := td.1, confidence := td.2.conf, bounding_box := td.2.bbox,
               low_confidence := decide (td.2.conf < threshold) } : KycApi.ApiWordRecord))).map
        (fun u => u ++ [' ']) := by
    rw [List.map_map]
    rfl
  rw [hmm]
  apply strip_flatten
  · intro t ht
    obtain ⟨td, htd, rfl⟩ := List.mem_map.mp ht
    obtain ⟨d, _, hk⟩ := List.mem_filterMap.mp htd
    exact (kept_text_good d td hk).1
  · intro t ht
    obtain ⟨td, htd, rfl⟩ := List.mem_map.mp ht
    obtain ⟨d, _, hk⟩ := List.mem_filterMap.mp htd
    exact (kept_text_good d td hk).2.1
  · intro t ht
    obtain ⟨td, htd, rfl⟩ := List.mem_map.mp ht
    obtain ⟨d, _, hk⟩ := List.mem_filterMap.mp htd
    exact (kept_text_good d td hk).2.2

theorem subZeroAux_length (l : List Char) : ∀ prev, (subZeroAux prev l).length = l.length := by
  induction l with
  | nil =>
    intro prev
    rfl
  | cons c rest ih =>
    intro prev
    rw [subZeroAux]
    simp [ih]

theorem map_getD (f : Char → Char) (l : List Char) :
    ∀ (i : Nat) (d : Char), i < l.length → (l.map f).getD i d = f (l.getD i d) := by
  induction l with
  | nil =>
    intro i d h
    simp at h
  | cons c rest ih =>
    intro i d h
    cases i with
    | zero => rfl
    | succ j =>
      rw [List.map_cons, List.getD_cons_succ, List.getD_cons_succ]
      exact ih j d (by simpa using h)

theorem subZeroAux_getD (l : List Char) :
    ∀ (prev : Option Char) (i : Nat), i < l.length →
      (subZeroAux prev l).getD i ' ' =
        (if l.getD i ' ' = '0' ∧
            (if i = 0 then prevNonDigit prev = true
              else pyDigit (l.getD (i - 1) ' ') = false) ∧
            i + 1 < l.length ∧ pyDigit (l.getD (i + 1) ' ') = false
          then 'O' else l.getD i ' ') := by
  induction l with
  | nil =>
    intro prev i h
    simp at h
  | cons c rest ih =>
    intro prev i h
    cases i with
    | zero =>
      rw [subZeroAux, List.getD_cons_zero, List.getD_cons_zero]
      cases rest with
      | nil => simp [nextNonDigit]
      | cons dch r2 =>
        by_cases h1 : c = '0' <;> by_cases h2 : prevNonDigit prev = true <;>
          by_cases h3 : pyDigit dch = false <;>
          simp [nextNonDigit, h1, h2, h3, Nat.succ_lt_succ_iff]
    | succ j =>
      rw [subZeroAux, List.getD_cons_succ, ih (some c) j (by simpa using h)]
      have hgetd : rest.getD j ' ' = (c :: rest).getD (j + 1) ' ' :=
        (List.getD_cons_succ).symm
      have hiff : (rest.getD j ' ' = '0' ∧
          (if j = 0 then prevNonDigit (some c) = true
            else pyDigit (rest.getD (j - 1) ' ') = false) ∧
          j + 1 < rest.length ∧ pyDigit (rest.getD (j + 1) ' ') = false) ↔
          ((c :: rest).getD (j + 1) ' ' = '0' ∧
          (if j + 1 = 0 then prevNonDigit prev = true
            else pyDigit ((c :: rest).getD (j + 1 - 1) ' ') = false) ∧
          j + 1 + 1 < (c :: rest).length ∧
          pyDigit ((c :: rest).getD (j + 1 + 1) ' ') = false) := by
        cases j with
        | zero =>
          simp [prevNonDigit, Bool.not_eq_true', Nat.succ_lt_succ_iff]
        | succ k =>
          simp [Nat.succ_lt_succ_iff]
      rw [if_congr hiff rfl hgetd]

theorem pySpace_pipeFix (x : Char) : pySpace (pipeFix x) = pySpace x := by
  by_cases h : x = '|'
  · subst h
    decide
  · simp [pipeFix, h]

theorem alpha_not_digit (c : Char) (h : pyAlpha c = true) : pyDigit c = false := by
  simp [pyAlpha, devanagariLetter, pyDigit] at *
  omega

theorem collapseWS_head (s : List Char) (c : Char)
    (h : (collapseWS s).head? = some c) : pySpace c = false := by
  rw [collapseWS] at h
  cases hd : s.dropWhile pySpace with
  | nil =>
    rw [hd] at h
    simp [collapseAux] at h
  | cons a rest =>
    have ha : pySpace a = false := dw_head s a (by rw [hd]; rfl)
    rw [hd, collapseAux, if_neg (by simp [ha]), if_neg (by simp)] at h
    simp at h
    rw [← h]
    exact ha

theorem collapseAux_last (l : List Char) :
    ∀ (p : Bool) (c : Char), (collapseAux p l).getLast? = some c → pySpace c = false := by
  induction l with
  | nil =>
    intro p c h
    simp [collapseAux] at h
  | cons a rest ih =>
    intro p c h
    rw [collapseAux] at h
    by_cases ha : pySpace a = true
    · rw [if_pos ha] at h
      exact ih true c h
    · rw [if_neg ha] at h
      have ha2 : pySpace a = false := by simpa using ha
      cases hX : collapseAux false rest with
      | nil =>
        cases p with
        | true =>
          rw [if_pos rfl, hX, List.getLast?_cons_cons] at h
          simp at h
          rw [← h]
          exact ha2
        | false =>
          rw [if_neg (by simp), hX] at h
          simp at h
          rw [← h]
          exact ha2
      | cons x xs =>
        cases p with
        | true =>
          rw [if_pos rfl, hX, List.getLast?_cons_cons, List.getLast?_cons_cons] at h
          exact ih false c (by rw [hX]; exact h)
        | false =>
          rw [if_neg (by simp), hX, List.getLast?_cons_cons] at h
          exact ih false c (by rw [hX]; exact h)

theorem collapseWS_last (s : List Char) (c : Char)
    (h : (collapseWS s).getLast? = some c) : pySpace c = false :=
  collapseAux_last _ false c h

theorem subZero_head (u : List Char) (c : Char)
    (hu : ∀ c0, u.head? = some c0 → pySpace c0 = false)
    (h : (subZero u).head? = some c) : pySpace c = false := by
  cases u with
  | nil => simp [subZero, subZeroAux] at h
  | cons a rest =>
    rw [subZero, subZeroAux] at h
    simp at h
    have ha : pySpace a = false := hu a rfl
    by_cases hcond : (a = '0' ∧ prevNonDigit none = true) ∧ nextNonDigit rest = true
    · rw [if_pos hcond] at h
      rw [← h]
      decide
    · rw [if_neg hcond] at h
      rw [← h]
      exact ha

theorem subZeroAux_last (l : List Char) :
    ∀ (prev : Option Char) (c : Char), (subZeroAux prev l).getLast? = some c →
      ∃ c0, l.getLast? = some c0 ∧ pySpace c = pySpace c0 := by
  induction l with
  | nil =>
    intro prev c h
    simp [subZeroAux] at h
  | cons a rest ih =>
    intro prev c h
    rw [subZeroAux] at h
    cases hX : subZeroAux (some a) rest with
    | nil =>
      have hrest : rest = [] := by
        have hl := subZeroAux_length rest (some a)
        rw [hX] at hl
        have : rest.length = 0 := by simpa using hl.symm
        simpa using this
      subst hrest
      rw [hX] at h
      simp at h
      refine ⟨a, rfl, ?_⟩
      rw [← h]
      by_cases hcond : (a = '0' ∧ prevNonDigit prev = true) ∧ nextNonDigit [] = true
      · rw [if_pos hcond]
        rw [hcond.1.1]
        decide
      · rw [if_neg hcond]
    | cons x xs =>
      rw [hX, List.getLast?_cons_cons, ← hX] at h
      obtain ⟨c0, hc0, hps⟩ := ih (some a) c h
      have hrest : rest ≠ [] := by
        intro he
        rw [he] at hX
        simp [subZeroAux] at hX
      obtain ⟨y, ys, rfl⟩ : ∃ y ys, rest = y :: ys := by
        cases rest with
        | nil => exact absurd rfl hrest
        | cons y ys => exact ⟨y, ys, rfl⟩
      exact ⟨c0, by rw [List.getLast?_cons_cons]; exact hc0, hps⟩

theorem clean_text_api_eq (s : List Char) :
    KycApi.clean_text s = (subZero (collapseWS s)).map pipeFix := by
  rw [KycApi.clean_text]
  apply strip_eq_self
  · intro c h
    rw [List.head?_map] at h
    cases hh : (subZero (collapseWS s)).head? with
    | none =>
      rw [hh] at h
      simp at h
    | some c0 =>
      rw [hh] at h
      simp at h
      have h0 : pySpace c0 = false := subZero_head _ c0 (collapseWS_head s) hh
      rw [← h, pySpace_pipeFix]
      exact h0
  · intro c h
    rw [List.getLast?_map] at h
    cases hh : (subZero (collapseWS s)).getLast? with
    | none =>
      rw [hh] at h
      simp at h
    | some c0 =>
      rw [hh] at h
      simp at h
      obtain ⟨c1, hc1, hps⟩ := subZeroAux_last (collapseWS s) none c0 hh
      have h1 : pySpace c1 = false := collapseWS_last s c1 hc1
      rw [← h, pySpace_pipeFix, hps, h1]

/-- C1: the API text normalizer replaces a digit zero by the letter O only
when the zero is flanked on both sides by non-digit characters.  The
flanking is assessed on the whitespace-collapsed text (normalization rule 1
runs before the substitution): at every position of the collapsed text
holding a zero, the cleaned text holds O exactly when the position is
interior and both neighbours are non-digits; in particular a zero flanked
by two digits is never replaced, and an interior zero flanked by two
letters is always replaced. -/
theorem c1_zero_flanking (s : List Char) (i : Nat)
    (h0 : (collapseWS s).getD i ' ' = '0') :
    ((KycApi.clean_text s).getD i ' ' =
      if 0 < i ∧ i + 1 < (collapseWS s).length ∧
          pyDigit ((collapseWS s).getD (i - 1) ' ') = false ∧
          pyDigit ((collapseWS s).getD (i + 1) ' ') = false
        then 'O' else '0') ∧
      (pyDigit ((collapseWS s).getD (i - 1) ' ') = true →
        pyDigit ((collapseWS s).getD (i + 1) ' ') = true →
        (KycApi.clean_text s).getD i ' ' = '0') ∧
      (0 < i → i + 1 < (collapseWS s).length →
        pyAlpha ((collapseWS s).getD (i - 1) ' ') = true →
        pyAlpha ((collapseWS s).getD (i + 1) ' ') = true →
        (KycApi.clean_text s).getD i ' ' = 'O') := by
  have hi : i < (collapseWS s).length := by
    by_contra hge
    rw [List.getD_eq_default _ _ (by omega)] at h0
    exact absurd h0 (by decide)
  have hlen : (subZero (collapseWS s)).length = (collapseWS s).length :=
    subZeroAux_length _ none
  have hmain : (KycApi.clean_text s).getD i ' ' =
      if 0 < i ∧ i + 1 < (collapseWS s).length ∧
          pyDigit ((collapseWS s).getD (i - 1) ' ') = false ∧
          pyDigit ((collapseWS s).getD (i + 1) ' ') = false
        then 'O' else '0' := by
    rw [clean_text_api_eq, map_getD _ _ i ' ' (by omega), subZero,
      subZeroAux_getD _ none i hi, h0, apply_ite pipeFix,
      show pipeFix 'O' = 'O' from rfl, show pipeFix '0' = '0' from rfl]
    by_cases hiz : i = 0
    · subst hiz
      rw [if_neg (by simp [prevNonDigit]), if_neg (by simp)]
    · have hiff : ('0' = '0' ∧
          (if i = 0 then prevNonDigit none = true
            else pyDigit ((collapseWS s).getD (i - 1) ' ') = false) ∧
          i + 1 < (collapseWS s).length ∧
          pyDigit ((collapseWS s).getD (i + 1) ' ') = false) ↔
          (0 < i ∧ i + 1 < (collapseWS s).length ∧
            pyDigit ((collapseWS s).getD (i - 1) ' ') = false ∧
            pyDigit ((collapseWS s).getD (i + 1) ' ') = false) := by
        rw [if_neg hiz]
        constructor
        · rintro ⟨-, ha, hb, hc⟩
          exact ⟨Nat.pos_of_ne_zero hiz, hb, ha, hc⟩
        · rintro ⟨-, hb, ha, hc⟩
          exact ⟨rfl, ha, hb, hc⟩
      rw [if_congr hiff rfl rfl]
  refine ⟨hmain, ?_, ?_⟩
  · intro hd1 hd2
    rw [hmain, if_neg]
    rintro ⟨-, -, hf, -⟩
    rw [hd1] at hf
    exact absurd hf (by decide)
  · intro hp hl ha1 ha2
    rw [hmain, if_pos ⟨hp, hl, alpha_not_digit _ ha1, alpha_not_digit _ ha2⟩]

/-- Witness for C1 on the already-collapsed text "a0b 102": the zero at
position 1 is flanked by letters and becomes O, while the zero at position
5 is flanked by digits and is preserved. -/
theorem c1_zero_flanking_witness :
    (KycApi.clean_text "a0b 102".data).getD 1 ' ' = 'O' ∧
      (KycApi.clean_text "a0b 102".data).getD 5 ' ' = '0' := by
  constructor
  · exact (c1_zero_flanking "a0b 102".data 1 (by decide)).2.2 (by decide) (by decide)
      (by decide) (by decide)
  · exact (c1_zero_flanking "a0b 102".data 5 (by decide)).2.1 (by decide) (by decide)
